import Mathlib

/-!
Verification of the deduction-report application (`src/app/deductions/actions.ts`).

The TypeScript source is shallowly embedded below.  JavaScript numbers are
modelled as exact rationals extended with NaN and signed infinities (`JsNum`);
all values that flow through spreadsheet rows are modelled by `JsVal`
(`undefined`, a string, or a number).  Spreadsheet rows are positional lists of
cells.  `randomUUID()` is modelled by an uninterpreted placeholder string
(`uuidModel`): no verified property depends on the generated ids.  Wall-clock
reads are modelled as explicit parameters, since each operation samples the
clock once and only the sampled strings matter.
-/

namespace Khasmak

/-- A JavaScript number: NaN, ±Infinity, or a finite value.  Finite doubles are
idealised as exact rationals; every concrete value appearing in the verified
statements is exactly representable as a double. -/
inductive JsNum where
  | nan : JsNum
  | inf : Bool → JsNum  -- `inf true` is -Infinity
  | val : Rat → JsNum
deriving DecidableEq

/-- JavaScript addition on `JsNum` (IEEE rules restricted to this model). -/
def JsNum.add : JsNum → JsNum → JsNum
  | .nan, _ => .nan
  | _, .nan => .nan
  | .inf s, .inf t => if s = t then .inf s else .nan
  | .inf s, .val _ => .inf s
  | .val _, .inf t => .inf t
  | .val a, .val b => .val (a + b)

/-- JavaScript multiplication on `JsNum` (IEEE rules restricted to this model). -/
def JsNum.mul : JsNum → JsNum → JsNum
  | .nan, _ => .nan
  | _, .nan => .nan
  | .inf s, .inf t => .inf (s ≠ t)
  | .inf s, .val q => if q = 0 then .nan else .inf (s ≠ decide (q < 0))
  | .val q, .inf t => if q = 0 then .nan else .inf (t ≠ decide (q < 0))
  | .val a, .val b => .val (a * b)

/-- JavaScript boolean coercion of a number: NaN and 0 are falsy. -/
def JsNum.truthy : JsNum → Bool
  | .nan => false
  | .inf _ => true
  | .val q => q ≠ 0

/-- `n || 0` as it appears in `submitDeductions` (`Number(x) || 0`). -/
def JsNum.orZero (n : JsNum) : JsNum := if n.truthy then n else .val 0

/-- The set of characters matched by JavaScript's `\s` (also the characters
removed by `String.prototype.trim`). -/
def isJsWhitespace (c : Char) : Bool :=
  let n := c.toNat
  n = 0x20 || n = 0x9 || n = 0xA || n = 0xB || n = 0xC || n = 0xD ||
  n = 0xA0 || n = 0x1680 || (0x2000 ≤ n && n ≤ 0x200A) ||
  n = 0x2028 || n = 0x2029 || n = 0x202F || n = 0x205F || n = 0x3000 || n = 0xFEFF

/-- Numeric value of a list of ASCII digits. -/
def digitsToNat (l : List Char) : Nat :=
  l.foldl (fun a c => a * 10 + (c.toNat - 48)) 0

/-- Exponent part of a JavaScript float literal: returns the exponent and the
unconsumed rest.  An `e` not followed by a digit is not consumed (longest valid
prefix rule). -/
def parseExpPart (cs : List Char) : Int × List Char :=
  match cs with
  | c :: rest =>
    if c = 'e' ∨ c = 'E' then
      let (esign, r2) := match rest with
        | '-' :: t => (true, t)
        | '+' :: t => (false, t)
        | _ => (false, rest)
      let ds := r2.takeWhile Char.isDigit
      if ds.isEmpty then (0, cs)
      else ((if esign then -(digitsToNat ds : Int) else (digitsToNat ds : Int)),
            r2.dropWhile Char.isDigit)
    else (0, cs)
  | [] => (0, [])

/-- `m.d₂ × 10^e` as an exact rational. -/
def applyExp (q : Rat) (e : Int) : Rat :=
  if 0 ≤ e then q * (10 : Rat) ^ e.toNat else q / (10 : Rat) ^ (-e).toNat

/-- Mantissa value of integer digits `d1` and fraction digits `d2`. -/
def mantissaVal (d1 d2 : List Char) : Rat :=
  ((digitsToNat d1 * 10 ^ d2.length + digitsToNat d2 : Nat) : Rat) /
    ((10 : Rat) ^ d2.length)

/-- Unsigned decimal literal (digits, optional fraction, optional exponent);
returns the value and the unconsumed rest, or `none` when no digit is found. -/
def parseUnsignedDec (cs : List Char) : Option (Rat × List Char) :=
  let d1 := cs.takeWhile Char.isDigit
  let r1 := cs.dropWhile Char.isDigit
  match r1 with
  | '.' :: r2 =>
    let d2 := r2.takeWhile Char.isDigit
    let r3 := r2.dropWhile Char.isDigit
    if d1.isEmpty ∧ d2.isEmpty then none
    else
      let (e, r4) := parseExpPart r3
      some (applyExp (mantissaVal d1 d2) e, r4)
  | _ =>
    if d1.isEmpty then none
    else
      let (e, r2) := parseExpPart r1
      some (applyExp (mantissaVal d1 []) e, r2)

/-- Signed JavaScript float literal prefix (`StrDecimalLiteral`), including
`Infinity`; returns the parsed number and the unconsumed rest. -/
def parseSignedFloat (cs : List Char) : Option (JsNum × List Char) :=
  let (neg, cs1) := match cs with
    | '-' :: t => (true, t)
    | '+' :: t => (false, t)
    | _ => (false, cs)
  if ('I' :: "nfinity".data).isPrefixOf cs1 then
    some (.inf neg, cs1.drop 8)
  else
    match parseUnsignedDec cs1 with
    | some (q, r) => some (.val (if neg then -q else q), r)
    | none => none

/-- JavaScript `parseFloat` on a string: skip leading whitespace, parse the
longest valid float prefix, NaN when none exists. -/
def parseFloatStr (s : String) : JsNum :=
  match parseSignedFloat (s.data.dropWhile isJsWhitespace) with
  | some (n, _) => n
  | none => .nan

/-- JavaScript `Number(string)`: whitespace-trimmed, empty string is 0, and the
whole remainder must be a numeric literal.  (Hex/octal/binary literal forms are
outside this model; no program value reaches them — the only strings the
program converts are `''` and decimal renderings of numbers.) -/
def strToNumber (s : String) : JsNum :=
  let t := ((s.data.dropWhile isJsWhitespace).reverse.dropWhile isJsWhitespace).reverse
  if t.isEmpty then .val 0
  else
    match parseSignedFloat t with
    | some (n, []) => n
    | _ => .nan

/-- `(count of p in n, n with all factors p removed)`, with explicit fuel. -/
def stripFactor : Nat → Nat → Nat → Nat × Nat
  | 0, _, n => (0, n)
  | fuel + 1, p, n =>
    if n % p = 0 ∧ n ≠ 0 then
      let (c, m) := stripFactor fuel p (n / p)
      (c + 1, m)
    else (0, n)

/-- JavaScript's decimal rendering of a finite number, for the magnitudes this
program produces (plain decimal notation; the `1e21`/`1e-7` exponent-notation
thresholds of full JS are not modelled, and rationals that are not exact
terminating decimals — which cannot arise from doubles printed in plain
notation — fall back to a fraction rendering). -/
def ratToString (q : Rat) : String :=
  if q = 0 then "0"
  else
    let sign := if q < 0 then "-" else ""
    let n := q.num.natAbs
    let d := q.den
    let (a, d2) := stripFactor d 2 d
    let (b, d5) := stripFactor d2 5 d2
    if d5 ≠ 1 then sign ++ toString n ++ "/" ++ toString d
    else
      let k := max a b
      let scaled := n * 10 ^ k / d
      let ip := scaled / 10 ^ k
      let fr := scaled % 10 ^ k
      if k = 0 then sign ++ toString ip
      else
        let fs := toString fr
        sign ++ toString ip ++ "." ++
          (String.mk (List.replicate (k - fs.length) '0') ++ fs)

/-- String conversion of a `JsNum` (as in template literals). -/
def JsNum.toStr : JsNum → String
  | .nan => "NaN"
  | .inf neg => if neg then "-Infinity" else "Infinity"
  | .val q => ratToString q

/-- UTF-16 code units of a character. -/
def u16Char (c : Char) : List Nat :=
  if c.toNat < 0x10000 then [c.toNat]
  else [0xD800 + (c.toNat - 0x10000) / 0x400, 0xDC00 + (c.toNat - 0x10000) % 0x400]

/-- UTF-16 code units of a string. -/
def strU16 (s : String) : List Nat := (s.data.map u16Char).flatten

/-- JavaScript `s.startsWith(pre)`: prefix on the UTF-16 code units. -/
def jsStartsWith (s pre : String) : Bool := List.isPrefixOf (strU16 pre) (strU16 s)

/-- Left inverse of the UTF-16 encoding (lead surrogates recombined with their
trail unit); used to prove the encoding injective. -/
def decodeU16 : List Nat → List Nat
  | [] => []
  | [u] => [u]
  | u :: t :: rest =>
    if 0xD800 ≤ u ∧ u < 0xDC00 then
      (0x10000 + (u - 0xD800) * 0x400 + (t - 0xDC00)) :: decodeU16 rest
    else u :: decodeU16 (t :: rest)

/-- `l.split(sep)` on character lists: split at every occurrence of the
separator, keeping empty segments (JavaScript `String.prototype.split` with a
single-character separator). -/
def splitCharList (sep : Char) : List Char → List (List Char)
  | [] => [[]]
  | c :: rest =>
    let r := splitCharList sep rest
    if c = sep then [] :: r
    else (c :: r.headD []) :: r.tail

/-- JavaScript `s.split(' ')`. -/
def jsSplitSpace (s : String) : List String :=
  (splitCharList ' ' s.data).map String.mk

/-- A dynamically-typed JavaScript value as it occurs in spreadsheet rows and
in the reconstructed records: `undefined`, a string, or a number. -/
inductive JsVal where
  | undefined : JsVal
  | str : String → JsVal
  | num : JsNum → JsVal
deriving DecidableEq

/-- JavaScript boolean coercion: `undefined`, `''`, `0` and NaN are falsy. -/
def JsVal.truthy : JsVal → Bool
  | .undefined => false
  | .str s => s ≠ ""
  | .num n => n.truthy

/-- JavaScript `a || b`. -/
def JsVal.orElse (a b : JsVal) : JsVal := if a.truthy then a else b

/-- String interpolation of a value (template literal / implicit coercion). -/
def JsVal.toStr : JsVal → String
  | .undefined => "undefined"
  | .str s => s
  | .num n => n.toStr

/-- JavaScript `Number(v)` on a model value. -/
def JsVal.toNumber : JsVal → JsNum
  | .undefined => .nan
  | .str s => strToNumber s
  | .num n => n

/-- `parseFloat(v)`.  `parseFloat` coerces its argument to a string first; for
a number cell this round-trips to the same number (shortest round-trip
printing), which the model takes definitionally. -/
def JsVal.parseFloat : JsVal → JsNum
  | .str s => parseFloatStr s
  | .undefined => parseFloatStr "undefined"
  | .num n => n

/-- A raw spreadsheet row: positional list of cells. -/
abbrev Row : Type := List JsVal

/-- `row[i]`: `undefined` beyond the populated length. -/
def cellAt (r : Row) (i : Nat) : JsVal := List.getD r i .undefined

/-- `deductions-store` record for one line item, as constructed by the source
(`Deduction` in `@/stores/deductions-store`; field set read off from its uses
in `actions.ts` and the form). -/
structure Deduction where
  id : String
  contractName : JsVal
  itemName : JsVal
  workDescription : JsVal
  meterEquivalentValue : JsVal
  meterEquivalentUnit : String
  quantity : JsVal
  unitPrice : JsVal
  personName : JsVal
deriving DecidableEq

/-- `Contractor` record (`@/stores/deductions-store`). -/
structure Contractor where
  id : String
  contractorName : JsVal
  notes : JsVal
  deductions : List Deduction
deriving DecidableEq

/-- `Submission` record (`actions.ts`, lines 15-23). -/
structure Submission where
  reportId : String
  timestamp : String
  userEmail : JsVal
  status : JsVal
  company : JsVal
  contractors : List Contractor
  grandTotal : JsNum
deriving DecidableEq

/-- Placeholder for `randomUUID()`: the generated ids are uninterpreted and no
verified statement depends on them. -/
def uuidModel : String := "uuid"

/-- `(row[8] || '').split(' ')` then `[meterValue, meterUnit]` destructuring,
and the two meter fields built from them (lines 448-456).  A truthy *number*
in column 8 would raise a TypeError in the source (`split` on a number); that
case is unreachable — column 8 is always written as a string — and is modelled
through the string coercion. -/
def meterParts (c : JsVal) : List String :=
  jsSplitSpace (JsVal.toStr (c.orElse (.str "")))

/-- The `Deduction` built from one row (lines 450-460). -/
def mkDeduction (r : Row) : Deduction :=
  let parts := meterParts (cellAt r 8)
  let meterValue := parts.headD ""
  { id := "deduction-" ++ uuidModel
    contractName := cellAt r 5
    itemName := cellAt r 6
    workDescription := cellAt r 7
    meterEquivalentValue :=
      if meterValue ≠ "" then .num (parseFloatStr meterValue) else .str ""
    meterEquivalentUnit := parts.getD 1 ""
    quantity := .num (cellAt r 9).parseFloat
    unitPrice := .num (cellAt r 10).parseFloat
    personName := cellAt r 12 }

/-- The string key a row is sub-grouped by inside a report:
`contractorsMap[row[4]]` coerces the cell to a property key. -/
def nameKey (r : Row) : String := (cellAt r 4).toStr

/-- One step of filling `contractorsMap` (lines 435-462): a new name creates
the contractor (capturing that row's notes), an existing name only appends the
deduction. -/
def insertContractorRow :
    List (String × Contractor) → Row → List (String × Contractor)
  | [], r =>
    [(nameKey r,
      { id := "contractor-" ++ nameKey r
        contractorName := cellAt r 4
        notes := (cellAt r 13).orElse (.str "")
        deductions := [mkDeduction r] })]
  | (k0, c) :: rest, r =>
    if k0 = nameKey r then
      (k0, { c with deductions := c.deductions ++ [mkDeduction r] }) :: rest
    else
      (k0, c) :: insertContractorRow rest r

/-- The insertion-ordered `contractorsMap` for one group of rows. -/
def contractorsMapOf (rows : List Row) : List (String × Contractor) :=
  rows.foldl insertContractorRow []

/-- Is a string a canonical JavaScript array index (all-digit, no leading
zero except `"0"`, below 2^32 - 1)?  Such object keys iterate first, in
ascending numeric order. -/
def arrayIdx? (s : String) : Option Nat :=
  if s = "0" then some 0
  else if s.data ≠ [] ∧ s.data.all Char.isDigit ∧ s.data.headD '0' ≠ '0' ∧
          digitsToNat s.data < 4294967295 then
    some (digitsToNat s.data)
  else none

/-- Sort key used to order integer-like property keys. -/
def idxKeyVal {α : Type} (e : String × α) : Nat := (arrayIdx? e.1).getD 0

/-- `Object.entries` / `Object.values` iteration order of a string-keyed
object: canonical array-index keys first in ascending numeric order, then the
remaining keys in insertion order. -/
def orderedEntries {α : Type} (l : List (String × α)) : List (String × α) :=
  List.insertionSort (fun a b => idxKeyVal a ≤ idxKeyVal b)
    (l.filter fun e => (arrayIdx? e.1).isSome) ++
  l.filter fun e => !(arrayIdx? e.1).isSome

/-- `Object.values(contractorsMap)` for one group. -/
def contractorsOf (rows : List Row) : List Contractor :=
  (orderedEntries (contractorsMapOf rows)).map Prod.snd

/-- Declarative characterization (proved, not taken from the source): the
contractor-name keys of a group in first-occurrence order. -/
def firstKeys (rows : List Row) : List String :=
  (rows.map nameKey).foldl (fun ks k => if k ∈ ks then ks else ks ++ [k]) []

/-- Declarative characterization (proved, not taken from the source): the
contractor built for key `k` — notes and display name from the first row of
that name, deductions from all its rows in order. -/
def contractorFor (k : String) (rows : List Row) : Contractor :=
  { id := "contractor-" ++ k
    contractorName :=
      match (rows.filter fun r => nameKey r = k).head? with
      | some r => cellAt r 4
      | none => .undefined
    notes :=
      match (rows.filter fun r => nameKey r = k).head? with
      | some r => (cellAt r 13).orElse (.str "")
      | none => .undefined
    deductions := (rows.filter fun r => nameKey r = k).map mkDeduction }

/-- The recomputed grand total (lines 465-467): note the absence of the
`|| 0` coercion used on the submit side. -/
def grandTotalOf (cs : List Contractor) : JsNum :=
  cs.foldl
    (fun total c =>
      total.add
        (c.deductions.foldl
          (fun subTotal d => subTotal.add (d.quantity.toNumber.mul d.unitPrice.toNumber))
          (.val 0)))
    (.val 0)

/-- `` `${row[0]} ${row[1]}` `` — the composite report key of a row. -/
def rowKey (r : Row) : String := (cellAt r 0).toStr ++ " " ++ (cellAt r 1).toStr

/-- `.replace(/\s|:/g, '-')`. -/
def replaceWsColon (s : String) : String :=
  ⟨s.data.map fun c => if isJsWhitespace c ∨ c = ':' then '-' else c⟩

/-- One step of the grouping `reduce` (lines 417-424): push the row onto its
key's bucket, creating the bucket on first sight. -/
def addToGroup :
    List (String × List Row) → String → Row → List (String × List Row)
  | [], k, r => [(k, [r])]
  | (k0, rs) :: rest, k, r =>
    if k0 = k then (k0, rs ++ [r]) :: rest
    else (k0, rs) :: addToGroup rest k r

/-- `groupedByTimestamp` as an insertion-ordered association list. -/
def groupByKey (rows : List Row) : List (String × List Row) :=
  rows.foldl (fun acc r => addToGroup acc (rowKey r) r) []

/-- The `Submission` built from one `(timestampKey, rows)` group
(lines 426-478).  `rows[0]` of a group is always present; the `headD []`
default is never reached. -/
def mkSubmission (e : String × List Row) : Submission :=
  let timestampKey := e.1
  let rows := e.2
  let firstRow := rows.headD []
  { reportId := "report-" ++ replaceWsColon timestampKey
    timestamp := timestampKey
    userEmail := cellAt firstRow 2
    status := (cellAt firstRow 14).orElse (.str "قيد المراجعة")
    company := cellAt firstRow 3
    contractors := contractorsOf rows
    grandTotal := grandTotalOf (contractorsOf rows) }

/-- Lexicographic order on code-unit lists. -/
def lexLtN : List Nat → List Nat → Bool
  | [], [] => false
  | [], _ :: _ => true
  | _ :: _, [] => false
  | x :: xs, y :: ys => x < y || (x = y && lexLtN xs ys)

/-- JavaScript `a < b` on strings: lexicographic on UTF-16 code units. -/
def jsStrLt (a b : String) : Bool := lexLtN (strU16 a) (strU16 b)

/-- The comparator of lines 480-484 (descending by timestamp). -/
def submissionCmp (a b : Submission) : Int :=
  if jsStrLt a.timestamp b.timestamp then 1
  else if jsStrLt b.timestamp a.timestamp then -1
  else 0

instance : DecidableRel (fun a b : Submission => submissionCmp a b ≤ 0) :=
  fun _ _ => Int.decLe _ _

/-- `parseSubmissionsFromRows` (lines 416-485).  ECMAScript `Array.sort` with a
consistent comparator is observably some stable sort ordered by the comparator;
it is modelled by the (stable) insertion sort. -/
def parseSubmissionsFromRows (rows : List Row) : List Submission :=
  List.insertionSort (fun a b => submissionCmp a b ≤ 0)
    ((orderedEntries (groupByKey rows)).map mkSubmission)

/-! ### Submit direction (`submitDeductions`, lines 249-337) -/

/-- The payload of `submitDeductions` (`SubmitDeductionsPayload`). -/
structure SubmitPayload where
  company : String
  contractors : List Contractor
  userEmail : String

/-- The grand total computed at submit time (lines 251-253): note the
`|| 0` coercion on both factors. -/
def submitGrandTotal (cs : List Contractor) : JsNum :=
  cs.foldl
    (fun total c =>
      total.add
        (c.deductions.foldl
          (fun dTotal d =>
            dTotal.add (d.quantity.toNumber.orZero.mul d.unitPrice.toNumber.orZero))
          (.val 0)))
    (.val 0)

/-- The `Submission` pushed onto the in-memory fallback list (lines 255-263);
`randomUUID()` and `new Date().toISOString()` are the `uuid`/`isoTimestamp`
parameters. -/
def mkNewSubmission (uuid isoTimestamp : String) (payload : SubmitPayload) :
    Submission :=
  { reportId := uuid
    timestamp := isoTimestamp
    userEmail := .str payload.userEmail
    status := .str "قيد المراجعة"
    company := .str payload.company
    contractors := payload.contractors
    grandTotal := submitGrandTotal payload.contractors }

/-- `rowsToAppend` (lines 287-312): one 15-column row per deduction, all rows
sharing the `date`/`time` strings sampled once per call. -/
def flattenRows (date time userEmail company : String)
    (contractors : List Contractor) : List Row :=
  (contractors.map fun c =>
    c.deductions.map fun d =>
      let meterEquivalent : JsVal :=
        if d.meterEquivalentValue.truthy then
          .str (d.meterEquivalentValue.toStr ++ " " ++ d.meterEquivalentUnit)
        else .str ""
      let quantity := d.quantity.toNumber.orZero
      let unitPrice := d.unitPrice.toNumber.orZero
      ([.str date, .str time, .str userEmail, .str company, c.contractorName,
        d.contractName.orElse (.str ""), d.itemName.orElse (.str ""),
        d.workDescription.orElse (.str ""), meterEquivalent,
        .num quantity, .num unitPrice, .num (quantity.mul unitPrice),
        d.personName.orElse (.str ""), c.notes.orElse (.str ""),
        .str "قيد المراجعة"] : Row)).flatten

/-- A JavaScript error value: an optional numeric `code` (Google API errors
carry one) and a `message`. -/
structure JsError where
  code : Option Nat
  message : String
deriving DecidableEq

/-- Outcome of the store interaction inside `submitDeductions`: the API may be
unconfigured, or configured with the sampled Cairo-time `date`/`time` strings
and the result of the append call. -/
inductive StoreBranch where
  | notConfigured : StoreBranch
  | configured : String → String → Except JsError Unit → StoreBranch

/-- The user-visible result object `{ success, message }`. -/
structure SubmitResult where
  success : Bool
  message : String
deriving DecidableEq

/-- The error message mapping of lines 327-335. -/
def friendlySubmitError (e : JsError) : JsError :=
  { code := none
    message :=
      if e.code = some 403 then
        "تم رفض الإذن. يرجى التأكد من أن بريد حساب الخدمة لديه صلاحية \"Editor\" على ملف Google Sheet."
      else if e.code = some 404 then
        "لم يتم العثور على الملف. يرجى التحقق مرة أخرى من GOOGLE_SHEET_ID في ملف .env.local الخاص بك."
      else "فشل إرسال البيانات إلى Google Sheets." }

/-- `submitDeductions` (lines 249-337) as a transformer of the process-wide
`mockSubmissions` list: the local copy is pushed before the store branch is
examined, so it is appended on every call regardless of the outcome. -/
def submitDeductions (mock : List Submission) (uuid isoTimestamp : String)
    (payload : SubmitPayload) (branch : StoreBranch) :
    List Submission × Except JsError SubmitResult :=
  let mock2 := mock ++ [mkNewSubmission uuid isoTimestamp payload]
  match branch with
  | .notConfigured =>
    (mock2, .ok ⟨true, "تم حفظ التقرير محلياً. لم يتم الإرسال لعدم وجود اتصال بـ Google."⟩)
  | .configured _ _ (.ok _) =>
    (mock2, .ok ⟨true, "تم إرسال التقرير بنجاح للمراجعة."⟩)
  | .configured _ _ (.error e) =>
    (mock2, .error (friendlySubmitError e))

/-! ### Users sheet (`getUserRoleByEmail` / `validateUser`, lines 341-407)

Rows read back from the Users sheet are plain strings; a missing cell behaves
as `''` under the `|| default` guards, so these rows are modelled as
`List String` with `getD _ ""` access. -/

/-- JavaScript `String.prototype.trim`. -/
def jsTrim (s : String) : String :=
  ⟨((s.data.dropWhile isJsWhitespace).reverse.dropWhile isJsWhitespace).reverse⟩

/-- `toLowerCase`, modelled on the Basic-Latin (ASCII) range — the only
case-carrying characters the program compares. -/
def jsLower (s : String) : String := ⟨s.data.map Char.toLower⟩

/-- `(row[2] || 'user')` on a string row. -/
def roleCell (row : List String) : String :=
  if List.getD row 2 "" = "" then "user" else List.getD row 2 ""

/-- The per-row match condition of `validateUser` (line 397). -/
def userRowMatches (row : List String) (email password expectedRole : String) :
    Bool :=
  jsLower (jsTrim (List.getD row 0 "")) = jsLower (jsTrim email) &&
  jsTrim (List.getD row 1 "") = jsTrim password &&
  jsLower (jsTrim (roleCell row)) = expectedRole

/-- The result object of `validateUser`. -/
structure ValidationResult where
  isValid : Bool
  role : Option String
deriving DecidableEq

/-- The row loop of `validateUser` (lines 391-401): first matching row wins,
otherwise invalid with no role. -/
def validateUserRows (rows : List (List String))
    (email password expectedRole : String) : ValidationResult :=
  match rows with
  | [] => ⟨false, none⟩
  | row :: rest =>
    if userRowMatches row email password expectedRole then
      ⟨true, some (jsLower (jsTrim (roleCell row)))⟩
    else validateUserRows rest email password expectedRole

/-- The row loop of `getUserRoleByEmail` (lines 358-366): first row whose
email matches decides; any stored role other than `admin` reads as `user`. -/
def findRoleRows (rows : List (List String)) (email : String) : Option String :=
  match rows with
  | [] => none
  | row :: rest =>
    if jsLower (jsTrim (List.getD row 0 "")) = jsLower (jsTrim email) then
      some (if jsLower (jsTrim (roleCell row)) = "admin" then "admin" else "user")
    else findRoleRows rest email

/-- `getUserRoleByEmail` (configured path), with the store read outcome made
explicit: a store failure is logged and swallowed — the function falls through
to `return null` (lines 367-371). -/
def getUserRoleBoundary (storeRead : Except JsError (List (List String)))
    (email : String) : Except JsError (Option String) :=
  if email = "" then .ok none
  else
    match storeRead with
    | .error _ => .ok none
    | .ok rows => .ok (findRoleRows rows email)

/-- `validateUser` (configured path): a store failure is logged and swallowed —
the function falls through to `return { isValid: false, role: null }`
(lines 402-406). -/
def validateUserBoundary (storeRead : Except JsError (List (List String)))
    (email password expectedRole : String) : Except JsError ValidationResult :=
  match storeRead with
  | .error _ => .ok ⟨false, none⟩
  | .ok rows => .ok (validateUserRows rows email password expectedRole)

/-! ### Status update (`updateReportStatus`, lines 595-671)

Rows read from a REQUEST sheet are strings; a missing cell interpolates as
`"undefined"` in the template literal of line 632. -/

/-- `row[i]` interpolated into a template literal, for string rows. -/
def cellTemplate (row : List String) (i : Nat) : String :=
  match List.getD (row.map some) i none with
  | some s => s
  | none => "undefined"

/-- `` `report-${row[0]}-${row[1]}`.replace(/\s|:/g, '-') `` (line 632). -/
def comparableRowId (row : List String) : String :=
  replaceWsColon ("report-" ++ cellTemplate row 0 ++ "-" ++ cellTemplate row 1)

/-- The index-collecting `forEach` of lines 628-637 (sheet rows are 1-indexed
and data starts at row 2, hence `+ 2`). -/
def rowIndicesToUpdate (rows : List (List String)) (reportId : String) :
    List Nat :=
  (rows.foldl
    (fun (st : Nat × List Nat) row =>
      (st.1 + 1,
       if jsStartsWith (comparableRowId row) reportId then st.2 ++ [st.1 + 2]
       else st.2))
    (0, [])).2

/-- One range of the single `batchUpdate` call: the target sheet row and the
four written cells `O..R` = [status, approval date, approval time, admin]. -/
structure UpdateReq where
  rowIndex : Nat
  values : List String
deriving DecidableEq

/-- `updateReportStatus` (configured path, lines 615-671) as a function of the
read-back rows: `none` models `response.data.values` being null.  The `catch`
of lines 666-670 rethrows a single error whose message is the caught error's
message, which the `Except` propagation models directly. -/
def updateReportStatusCore
    (storeRead : Except JsError (Option (List (List String))))
    (sheetName reportId newStatus approvalDate approvalTime adminEmail : String) :
    Except JsError (List UpdateReq) :=
  match storeRead with
  | .error e => .error ⟨none, e.message⟩
  | .ok none => .error ⟨none, "No data found in sheet: " ++ sheetName⟩
  | .ok (some rows) =>
    let idxs := rowIndicesToUpdate rows reportId
    if idxs = [] then
      .error ⟨none, "لم يتم العثور على التقرير بالمعرف: " ++ reportId⟩
    else
      .ok (idxs.map fun i =>
        ⟨i, [newStatus, approvalDate, approvalTime, adminEmail]⟩)

/-! ### Error boundaries of the remaining store-facing operations -/

/-- First-occurrence de-duplication: `[...new Set(list)]` keeps the first
occurrence of each element. -/
def dedupFirst (l : List String) : List String :=
  l.foldl (fun ks k => if k ∈ ks then ks else ks ++ [k]) []

/-- `getContractorList` error boundary (lines 144-165): a store failure is
re-raised with a fixed message; a successful read is de-duplicated keeping
first occurrences. -/
def getContractorListBoundary (storeRead : Except JsError (List String)) :
    Except JsError (List String) :=
  match storeRead with
  | .error _ => .error ⟨none, "Failed to fetch contractor list from Contractors."⟩
  | .ok names => .ok (dedupFirst names)

/-- `getContractList` error boundary (lines 184-205). -/
def getContractListBoundary (company : String)
    (storeRead : Except JsError (List String)) : Except JsError (List String) :=
  match storeRead with
  | .error _ =>
    .error ⟨none, "Failed to fetch contract list from " ++ company ++ " DATA."⟩
  | .ok names => .ok (dedupFirst names)

/-- `getWorkItemList` error boundary (lines 224-245). -/
def getWorkItemListBoundary (company : String)
    (storeRead : Except JsError (List String)) : Except JsError (List String) :=
  match storeRead with
  | .error _ =>
    .error ⟨none, "Failed to fetch work item list from " ++ company ++ " DATA."⟩
  | .ok names => .ok (dedupFirst names)

/-- `^\d{4}-\d{2}-\d{2}$` (line 535). -/
def isIsoDate (s : String) : Bool :=
  match s.data with
  | [a, b, c, d, h1, e, f, h2, g, i] =>
    a.isDigit && b.isDigit && c.isDigit && d.isDigit && h1 = '-' &&
    e.isDigit && f.isDigit && h2 = '-' && g.isDigit && i.isDigit
  | _ => false

/-- One per-company read of a `REQUEST` sheet inside `getSubmissionHistory` /
`getAllSubmissions`: the inner `catch` (lines 524-527 / 579-581) logs a store
failure and skips that company, contributing no rows; `ok none` models
`response.data.values` being absent. -/
def companyRows (storeRead : Except JsError (Option (List Row))) : List Row :=
  match storeRead with
  | .error _ => []
  | .ok none => []
  | .ok (some rows) => rows

/-- `getSubmissionHistory` (configured path, lines 505-548): each of the two
company sheets is read under its own inner catch — a store failure there is
logged and that company skipped — then the user's rows are range-filtered and
parsed.  Every store call sits inside the inner try, so the outer catch and
re-raise of line 547 are unreachable by store-call failures and the operation
returns a normal, possibly partial, result. -/
def getSubmissionHistoryBoundary
    (dmcRead curveRead : Except JsError (Option (List Row)))
    (userEmail : String) (startDate endDate : Option String) : List Submission :=
  let allUserRows :=
    (companyRows dmcRead).filter (fun row => cellAt row 2 == .str userEmail) ++
    (companyRows curveRead).filter (fun row => cellAt row 2 == .str userEmail)
  let filteredRows :=
    match startDate, endDate with
    | some sd, some ed =>
      if sd ≠ "" ∧ ed ≠ "" then
        allUserRows.filter fun row =>
          match cellAt row 0 with
          | .str rowDate =>
            isIsoDate rowDate && !jsStrLt rowDate sd && !jsStrLt ed rowDate
          | _ => false
      else allUserRows
    | _, _ => allUserRows
  parseSubmissionsFromRows filteredRows

/-- `getAllSubmissions` (configured path, lines 554-590): like the history
read, both per-company store calls are guarded by the inner catch of
lines 579-581, which logs and skips; a store failure therefore yields a
normal, possibly partial, result and the outer re-raise of line 588 is
unreachable by store-call failures. -/
def getAllSubmissionsBoundary
    (dmcRead curveRead : Except JsError (Option (List Row))) : List Submission :=
  parseSubmissionsFromRows (companyRows dmcRead ++ companyRows curveRead)

/-! ### Concrete rows used in the verified statements -/

/-- A stored row whose quantity cell (column 9) is not numeric. -/
def nanQuantityRow : Row :=
  [.str "2024-05-23", .str "14:30", .str "u@x.com", .str "DMC", .str "C1",
   .str "", .str "", .str "", .str "", .str "abc", .str "5", .str "",
   .str "", .str "", .str ""]

/-- A stored row whose meter-equivalent cell carries a two-word unit. -/
def meterUnitRow : Row :=
  [.str "2024-05-23", .str "14:30", .str "u@x.com", .str "DMC", .str "C1",
   .str "", .str "", .str "", .str "12.5 متر مربع", .str "2", .str "5",
   .str "", .str "", .str "", .str ""]

/-- A stored row with an empty meter-equivalent cell. -/
def meterEmptyRow : Row :=
  [.str "2024-05-23", .str "14:30", .str "u@x.com", .str "DMC", .str "C1",
   .str "", .str "", .str "", .str "", .str "2", .str "5",
   .str "", .str "", .str "", .str ""]

/-- Date cell containing a space: `["a b", "c"]`. -/
def spacedDateRowA : Row := [.str "a b", .str "c", .str "u", .str "DMC", .str "X"]

/-- Companion row `["a", "b c"]`: a different date cell, the same composite key. -/
def spacedDateRowB : Row := [.str "a", .str "b c", .str "u", .str "DMC", .str "Y"]

/-- Two rows with identical date/time cells and different contractor names. -/
def twoContractorRowX : Row :=
  [.str "2024-06-01", .str "10:00", .str "u", .str "DMC", .str "X",
   .str "", .str "", .str "", .str "", .str "1", .str "2", .str "",
   .str "", .str "nx", .str ""]

/-- Second contractor row of the same report. -/
def twoContractorRowY : Row :=
  [.str "2024-06-01", .str "10:00", .str "u", .str "DMC", .str "Y",
   .str "", .str "", .str "", .str "", .str "3", .str "4", .str "",
   .str "", .str "ny", .str ""]

/-- First row of contractor `X`, carrying notes `n1`. -/
def sameNameRow1 : Row :=
  [.str "2024-06-01", .str "10:00", .str "u", .str "DMC", .str "X",
   .str "", .str "", .str "", .str "", .str "", .str "", .str "",
   .str "", .str "n1", .str ""]

/-- Second row of contractor `X`, carrying different notes `n2`. -/
def sameNameRow2 : Row :=
  [.str "2024-06-01", .str "10:00", .str "u", .str "DMC", .str "X",
   .str "c2", .str "", .str "", .str "", .str "", .str "", .str "",
   .str "", .str "n2", .str ""]

/-- The contractor reconstructed from the two `X` rows: notes from the first
row only. -/
def demoContractorX : Contractor :=
  { id := "contractor-X", contractorName := .str "X", notes := .str "n1",
    deductions := [mkDeduction sameNameRow1, mkDeduction sameNameRow2] }

/-- A May-timestamped row (sorts after the June one). -/
def mayRow : Row :=
  [.str "2024-05-01", .str "09:00", .str "u", .str "DMC", .str "C",
   .str "", .str "", .str "", .str "", .str "1", .str "1", .str "",
   .str "", .str "", .str ""]

/-- A June-timestamped row (sorts before the May one). -/
def juneRow : Row :=
  [.str "2024-06-01", .str "10:00", .str "u", .str "DMC", .str "C",
   .str "", .str "", .str "", .str "", .str "1", .str "1", .str "",
   .str "", .str "", .str ""]

/-! ## Helper lemmas -/

theorem JsVal.orElse_str_emptyDefault (s : String) :
    (JsVal.str s).orElse (.str "") = .str s := by
  by_cases h : s = "" <;> simp [JsVal.orElse, JsVal.truthy, h]

theorem JsNum.orZero_val (q : Rat) : (JsNum.val q).orZero = .val q := by
  by_cases h : q = 0 <;> simp [JsNum.orZero, JsNum.truthy, h]

theorem meterParts_empty : meterParts (.str "") = [""] := rfl

theorem orderedEntries_singleton {α : Type} (e : String × α) :
    orderedEntries [e] = [e] := by
  unfold orderedEntries
  by_cases h : (arrayIdx? e.1).isSome <;>
    simp [List.filter, h, List.insertionSort, List.orderedInsert]

theorem parseFloatStr_12_5 : parseFloatStr "12.5" = .val (25 / 2) := by
  show JsNum.val (applyExp (mantissaVal ['1', '2'] ['5']) 0) = .val (25 / 2)
  have h : applyExp (mantissaVal ['1', '2'] ['5']) 0 = 25 / 2 := by
    have hd : (digitsToNat ['1', '2'] * 10 ^ 1 + digitsToNat ['5'] : Nat) = 125 := by decide
    unfold applyExp mantissaVal
    simp only [List.length_cons, List.length_nil, hd]
    norm_num
  rw [h]

/-! ## Claim theorems -/

/-- Claim C2 (code bug): the reconstruction's grand total does **not** treat a
non-numeric quantity cell as 0 — the `|| 0` coercion of the submit side is
missing on lines 465-467, so the NaN produced by `parseFloat('abc')`
propagates through the whole sum and the reconstructed report's grand total is
NaN instead of the claimed 0. -/
theorem grandTotal_nan_on_nonNumeric_cell :
    (parseSubmissionsFromRows [nanQuantityRow]).map (·.grandTotal) = [JsNum.nan] ∧
    JsNum.nan ≠ JsNum.val 0 := by
  exact ⟨by decide, by decide⟩

/-- Claim C5 (code bug): the meter-equivalent cell is split with
`.split(' ')` — at **every** space — and only the second token is kept as the
unit, so the cell `"12.5 متر مربع"` parses to value 12.5 with unit `"متر"`,
not the claimed remainder `"متر مربع"`; the empty-cell case does parse to an
unset value as claimed. -/
theorem meter_parse_truncates_unit :
    (mkDeduction meterUnitRow).meterEquivalentValue = .num (.val (25 / 2)) ∧
    (mkDeduction meterUnitRow).meterEquivalentUnit = "متر" ∧
    "متر" ≠ "متر مربع" ∧
    (mkDeduction meterEmptyRow).meterEquivalentValue = .str "" ∧
    (mkDeduction meterEmptyRow).meterEquivalentUnit = "" := by
  refine ⟨?_, by decide, by decide, by decide, by decide⟩
  show JsVal.num (parseFloatStr "12.5") = .num (.val (25 / 2))
  exact congrArg JsVal.num parseFloatStr_12_5

/-- Claim C9 (counterexample): a store failure inside `validateUser` or
`getUserRoleByEmail` is *not* re-raised — both catch blocks only log, and the
operations return a normal invalid / null-role value. -/
theorem store_failure_swallowed_counterexample :
    validateUserBoundary (.error ⟨none, "network failure"⟩) "a@b.c" "pw" "user" =
      .ok ⟨false, none⟩ ∧
    getUserRoleBoundary (.error ⟨none, "network failure"⟩) "a@b.c" = .ok none := by
  exact ⟨rfl, rfl⟩

/-- Claim C9 (amended): the reference-list reads, the status update and the
submit operation catch a store-call failure at their boundary and re-raise it
as a single descriptive error; role lookup and user validation swallow the
failure and return a normal null-role / invalid result; the two submission
reads guard every store call with a per-company inner catch that logs and
skips that company, so a store failure there yields a normal — possibly
partial — result and their outer re-raise is unreachable by store-call
failures.  No operation retries. -/
theorem store_failure_boundaries :
    (∀ e email password role,
       validateUserBoundary (.error e) email password role = .ok ⟨false, none⟩) ∧
    (∀ e, companyRows (.error e) = companyRows (.ok none)) ∧
    (∀ e other, getAllSubmissionsBoundary (.error e) other =
       getAllSubmissionsBoundary (.ok none) other) ∧
    (∀ e other, getAllSubmissionsBoundary other (.error e) =
       getAllSubmissionsBoundary other (.ok none)) ∧
    (∀ e rows, getAllSubmissionsBoundary (.error e) (.ok (some rows)) =
       parseSubmissionsFromRows rows) ∧
    (∀ e other u sd ed, getSubmissionHistoryBoundary (.error e) other u sd ed =
       getSubmissionHistoryBoundary (.ok none) other u sd ed) ∧
    (∀ e other u sd ed, getSubmissionHistoryBoundary other (.error e) u sd ed =
       getSubmissionHistoryBoundary other (.ok none) u sd ed) ∧
    (∀ e email, getUserRoleBoundary (.error e) email = .ok none) ∧
    (∀ e sheetName reportId ns ad ati ae,
       updateReportStatusCore (.error e) sheetName reportId ns ad ati ae =
         .error ⟨none, e.message⟩) ∧
    (∀ e, getContractorListBoundary (.error e) =
       .error ⟨none, "Failed to fetch contractor list from Contractors."⟩) ∧
    (∀ e company, getContractListBoundary company (.error e) =
       .error ⟨none, "Failed to fetch contract list from " ++ company ++ " DATA."⟩) ∧
    (∀ e company, getWorkItemListBoundary company (.error e) =
       .error ⟨none, "Failed to fetch work item list from " ++ company ++ " DATA."⟩) ∧
    (∀ mock uuid ts payload d t e,
       (submitDeductions mock uuid ts payload (.configured d t (.error e))).2 =
         .error (friendlySubmitError e)) := by
  refine ⟨fun e _ _ _ => rfl, fun e => rfl, fun e _ => rfl, fun e other => rfl,
    fun e _ => rfl, fun e _ _ _ _ => rfl, fun e other _ _ _ => rfl,
    fun e email => ?_, fun e _ _ _ _ _ _ => rfl, fun e => rfl, fun e _ => rfl,
    fun e _ => rfl, fun _ _ _ _ _ _ e => rfl⟩
  unfold getUserRoleBoundary
  split <;> rfl

/-- Claim C10: every call of `submitDeductions` pushes exactly one new entry —
carrying the freshly generated report id, the sampled ISO timestamp and the
pending-review status literal — onto the in-memory fallback list, in every
branch: store unconfigured, append succeeded, and append failed. -/
theorem submit_always_appends_locally
    (mock : List Submission) (uuid isoTimestamp : String)
    (payload : SubmitPayload) (branch : StoreBranch) :
    (submitDeductions mock uuid isoTimestamp payload branch).1 =
      mock ++ [mkNewSubmission uuid isoTimestamp payload] ∧
    (mkNewSubmission uuid isoTimestamp payload).reportId = uuid ∧
    (mkNewSubmission uuid isoTimestamp payload).timestamp = isoTimestamp ∧
    (mkNewSubmission uuid isoTimestamp payload).status = .str "قيد المراجعة" := by
  refine ⟨?_, rfl, rfl, rfl⟩
  cases branch with
  | notConfigured => rfl
  | configured d t r => cases r <;> rfl

/-- Claim C8: user validation succeeds precisely when some stored row matches
the provided email case-insensitively after trimming, the provided password
exactly after trimming, and the requested role against the stored
(trimmed, lowercased, `user`-defaulted) role; on success the granted role is
the requested one, and otherwise — including valid email and password with a
mismatched requested role — the result is invalid with no role. -/
theorem validateUser_characterization (rows : List (List String))
    (email password expectedRole : String) :
    validateUserRows rows email password expectedRole =
      if rows.any (fun row => userRowMatches row email password expectedRole) then
        ⟨true, some expectedRole⟩
      else ⟨false, none⟩ := by
  induction rows with
  | nil => simp [validateUserRows]
  | cons row rest ih =>
    simp only [validateUserRows, List.any_cons]
    by_cases h : userRowMatches row email password expectedRole
    · have hrole : jsLower (jsTrim (roleCell row)) = expectedRole := by
        have := h
        unfold userRowMatches at this
        simp only [Bool.and_eq_true, decide_eq_true_eq] at this
        exact this.2
      simp [h, hrole]
    · simp [h, ih]

/-- Claim C7: the status update selects exactly the stored rows whose derived
`report-…` key has the given report key as a (code-unit) prefix, and rewrites
for each of them the status cell plus the three audit cells in the single
batch call; with zero matching rows it fails with the no-rows-matched error
and produces no write.  In particular the key `report-2024-06-01-10-00`
matches a row timestamped `2024-06-01`/`10:00` and also one timestamped
`2024-06-01`/`10:00:05`. -/
theorem updateReportStatus_prefix_match :
    (∀ (rows : List (List String)) (sheetName reportId ns ad ati ae : String),
      updateReportStatusCore (.ok (some rows)) sheetName reportId ns ad ati ae =
        (if (rows.enum.filter fun p => jsStartsWith (comparableRowId p.2) reportId) = [] then
          .error ⟨none, "لم يتم العثور على التقرير بالمعرف: " ++ reportId⟩
        else
          .ok ((rows.enum.filter fun p => jsStartsWith (comparableRowId p.2) reportId).map
            fun p => ⟨p.1 + 2, [ns, ad, ati, ae]⟩))) ∧
    jsStartsWith (comparableRowId ["2024-06-01", "10:00"]) "report-2024-06-01-10-00" = true ∧
    jsStartsWith (comparableRowId ["2024-06-01", "10:00:05"]) "report-2024-06-01-10-00" = true ∧
    jsStartsWith (comparableRowId ["2024-06-01", "11:00"]) "report-2024-06-01-10-00" = false := by
  refine ⟨?_, by decide, by decide, by decide⟩
  intro rows sheetName reportId ns ad ati ae
  have key : ∀ n acc,
      (rows.foldl
        (fun (st : Nat × List Nat) row =>
          (st.1 + 1,
           if jsStartsWith (comparableRowId row) reportId then st.2 ++ [st.1 + 2]
           else st.2))
        (n, acc)).2 =
      acc ++ ((List.enumFrom n rows).filter
        (fun p => jsStartsWith (comparableRowId p.2) reportId)).map (fun p => p.1 + 2) := by
    induction rows with
    | nil => intro n acc; simp
    | cons row rest ih =>
      intro n acc
      simp only [List.foldl_cons, List.enumFrom, List.filter_cons]
      by_cases h : jsStartsWith (comparableRowId row) reportId
      · simp [h, ih (n + 1) (acc ++ [n + 2])]
      · simp [h, ih (n + 1) acc]
  have hidx : rowIndicesToUpdate rows reportId =
      ((rows.enum.filter fun p => jsStartsWith (comparableRowId p.2) reportId).map
        fun p => p.1 + 2) := by
    unfold rowIndicesToUpdate
    simpa [List.enum] using key 0 []
  simp only [updateReportStatusCore, hidx]
  by_cases hm : (rows.enum.filter fun p => jsStartsWith (comparableRowId p.2) reportId) = []
  · simp [hm]
  · simp [hm, List.map_map, Function.comp]

/-- Claim C1: flatten-then-reconstruct round trip.  For any company, any
single contractor with two deduction line items (numeric quantity and unit
price, no meter-equivalent value), and a fixed date/time pair shared by both
flattened rows, reconstructing from exactly the flattened rows yields exactly
one report with exactly one contractor holding both line items in their
original order, and a grand total equal to the manually computed
q₁·p₁ + q₂·p₂.  Only the regenerated ids differ from the submitted records. -/
theorem roundTrip_single_contractor
    (date time user comp name notes id0 id1 id2 cn1 it1 wd1 pn1 cn2 it2 wd2 pn2 : String)
    (q1 p1 q2 p2 : Rat) :
    parseSubmissionsFromRows
      (flattenRows date time user comp
        [{ id := id0, contractorName := .str name, notes := .str notes,
           deductions :=
             [{ id := id1, contractName := .str cn1, itemName := .str it1,
                workDescription := .str wd1, meterEquivalentValue := .str "",
                meterEquivalentUnit := "", quantity := .num (.val q1),
                unitPrice := .num (.val p1), personName := .str pn1 },
              { id := id2, contractName := .str cn2, itemName := .str it2,
                workDescription := .str wd2, meterEquivalentValue := .str "",
                meterEquivalentUnit := "", quantity := .num (.val q2),
                unitPrice := .num (.val p2), personName := .str pn2 }] }]) =
      [{ reportId := "report-" ++ replaceWsColon (date ++ " " ++ time),
         timestamp := date ++ " " ++ time,
         userEmail := .str user,
         status := .str "قيد المراجعة",
         company := .str comp,
         contractors :=
           [{ id := "contractor-" ++ name, contractorName := .str name,
              notes := .str notes,
              deductions :=
                [{ id := "deduction-" ++ uuidModel, contractName := .str cn1,
                   itemName := .str it1, workDescription := .str wd1,
                   meterEquivalentValue := .str "", meterEquivalentUnit := "",
                   quantity := .num (.val q1), unitPrice := .num (.val p1),
                   personName := .str pn1 },
                 { id := "deduction-" ++ uuidModel, contractName := .str cn2,
                   itemName := .str it2, workDescription := .str wd2,
                   meterEquivalentValue := .str "", meterEquivalentUnit := "",
                   quantity := .num (.val q2), unitPrice := .num (.val p2),
                   personName := .str pn2 }] }],
         grandTotal := .val (q1 * p1 + q2 * p2) }] := by
  simp [parseSubmissionsFromRows, flattenRows, groupByKey, addToGroup, rowKey, cellAt,
    mkSubmission, contractorsOf, contractorsMapOf, insertContractorRow, mkDeduction,
    meterParts, nameKey, grandTotalOf, orderedEntries_singleton, JsVal.orElse_str_emptyDefault,
    JsNum.orZero_val, JsVal.toStr, JsVal.toNumber, JsVal.parseFloat, JsNum.add, JsNum.mul,
    JsVal.truthy, JsVal.orElse, List.insertionSort, List.orderedInsert, jsSplitSpace,
    splitCharList]
  constructor
  · by_cases h : notes = "" <;> simp [h]
  · simp [eq_comm]

theorem addToGroup_fst (acc : List (String × List Row)) (k : String) (r : Row) :
    (addToGroup acc k r).map Prod.fst =
      if k ∈ acc.map Prod.fst then acc.map Prod.fst else acc.map Prod.fst ++ [k] := by
  induction acc with
  | nil => simp [addToGroup]
  | cons e rest ih =>
    obtain ⟨k0, rs⟩ := e
    by_cases h : k0 = k
    · subst h; simp [addToGroup]
    · simp only [addToGroup, if_neg h, List.map_cons, ih]
      by_cases h2 : k ∈ rest.map Prod.fst <;>
        simp [h2, List.mem_cons, Ne.symm h]

theorem addToGroup_keysOK (acc : List (String × List Row)) (r : Row)
    (h : ∀ e ∈ acc, ∀ x ∈ e.2, rowKey x = e.1) :
    ∀ e ∈ addToGroup acc (rowKey r) r, ∀ x ∈ e.2, rowKey x = e.1 := by
  induction acc with
  | nil =>
    intro e he x hx
    simp [addToGroup] at he
    subst he
    simp at hx
    subst hx; rfl
  | cons e0 rest ih =>
    obtain ⟨k0, rs⟩ := e0
    by_cases hk : k0 = rowKey r
    · subst hk
      intro e he x hx
      simp only [addToGroup, if_pos rfl] at he
      rcases List.mem_cons.mp he with h1 | h1
      · subst h1
        rcases List.mem_append.mp hx with h2 | h2
        · exact h _ (List.mem_cons_self _ _) x h2
        · simp at h2; subst h2; rfl
      · exact h _ (List.mem_cons_of_mem _ h1) x hx
    · intro e he x hx
      simp only [addToGroup, if_neg hk] at he
      rcases List.mem_cons.mp he with h1 | h1
      · subst h1; exact h _ (List.mem_cons_self _ _) x hx
      · exact ih (fun e' he' => h e' (List.mem_cons_of_mem _ he')) e h1 x hx

theorem addToGroup_nodup (acc : List (String × List Row)) (k : String) (r : Row)
    (h : (acc.map Prod.fst).Nodup) : ((addToGroup acc k r).map Prod.fst).Nodup := by
  rw [addToGroup_fst]
  by_cases hk : k ∈ acc.map Prod.fst
  · simpa [hk] using h
  · simp [hk, List.nodup_append, h]

theorem addToGroup_mem_key (acc : List (String × List Row)) (k : String) (r : Row) :
    ∃ e ∈ addToGroup acc k r, e.1 = k ∧ r ∈ e.2 := by
  induction acc with
  | nil => exact ⟨(k, [r]), by simp [addToGroup]⟩
  | cons e0 rest ih =>
    obtain ⟨k0, rs⟩ := e0
    by_cases hk : k0 = k
    · subst hk
      exact ⟨(k0, rs ++ [r]), by simp [addToGroup]⟩
    · obtain ⟨e, he, h1, h2⟩ := ih
      exact ⟨e, by simp [addToGroup, hk, he], h1, h2⟩

theorem addToGroup_persist (acc : List (String × List Row)) (k : String) (r : Row)
    {k' : String} {x : Row} (h : ∃ e ∈ acc, e.1 = k' ∧ x ∈ e.2) :
    ∃ e ∈ addToGroup acc k r, e.1 = k' ∧ x ∈ e.2 := by
  induction acc with
  | nil => simp at h
  | cons e0 rest ih =>
    obtain ⟨k0, rs⟩ := e0
    obtain ⟨e, he, h1, h2⟩ := h
    rcases List.mem_cons.mp he with h3 | h3
    · subst h3
      by_cases hk : k0 = k
      · subst hk
        exact ⟨(k0, rs ++ [r]), by simp [addToGroup], h1, List.mem_append_left _ h2⟩
      · exact ⟨(k0, rs), by simp [addToGroup, hk], h1, h2⟩
    · by_cases hk : k0 = k
      · subst hk
        exact ⟨e, by simp [addToGroup, List.mem_cons_of_mem _ h3], h1, h2⟩
      · obtain ⟨e', he', h1', h2'⟩ := ih ⟨e, h3, h1, h2⟩
        exact ⟨e', by simp [addToGroup, hk, he'], h1', h2'⟩

theorem groupAux_keysOK (rows : List Row) :
    ∀ acc, (∀ e ∈ acc, ∀ x ∈ e.2, rowKey x = e.1) →
      ∀ e ∈ rows.foldl (fun a r => addToGroup a (rowKey r) r) acc,
        ∀ x ∈ e.2, rowKey x = e.1 := by
  induction rows with
  | nil => intro acc h; simpa using h
  | cons r rest ih =>
    intro acc h
    exact ih _ (addToGroup_keysOK acc r h)

theorem groupAux_nodup (rows : List Row) :
    ∀ acc, (acc.map Prod.fst).Nodup →
      ((rows.foldl (fun a r => addToGroup a (rowKey r) r) acc).map Prod.fst).Nodup := by
  induction rows with
  | nil => intro acc h; simpa using h
  | cons r rest ih =>
    intro acc h
    exact ih _ (addToGroup_nodup acc _ r h)

theorem groupAux_persist (rows : List Row) :
    ∀ acc (k' : String) (x : Row), (∃ e ∈ acc, e.1 = k' ∧ x ∈ e.2) →
      ∃ e ∈ rows.foldl (fun a r => addToGroup a (rowKey r) r) acc,
        e.1 = k' ∧ x ∈ e.2 := by
  induction rows with
  | nil => intro acc k' x h; simpa using h
  | cons r rest ih =>
    intro acc k' x h
    exact ih _ k' x (addToGroup_persist acc _ r h)

theorem groupAux_mem (rows : List Row) :
    ∀ acc (x : Row), x ∈ rows →
      ∃ e ∈ rows.foldl (fun a r => addToGroup a (rowKey r) r) acc,
        e.1 = rowKey x ∧ x ∈ e.2 := by
  induction rows with
  | nil => intro acc x h; simp at h
  | cons r rest ih =>
    intro acc x h
    rcases List.mem_cons.mp h with h1 | h1
    · subst h1
      exact groupAux_persist rest _ _ x (addToGroup_mem_key acc (rowKey x) x)
    · exact ih _ x h1

theorem assoc_eq_of_nodup {α : Type} (l : List (String × α))
    (h : (l.map Prod.fst).Nodup) :
    ∀ e1 ∈ l, ∀ e2 ∈ l, e1.1 = e2.1 → e1 = e2 := by
  induction l with
  | nil => intro e1 he1; simp at he1
  | cons e0 rest ih =>
    intro e1 he1 e2 he2 hk
    simp only [List.map_cons, List.nodup_cons] at h
    rcases List.mem_cons.mp he1 with h1 | h1 <;> rcases List.mem_cons.mp he2 with h2 | h2
    · rw [h1, h2]
    · exfalso
      apply h.1
      rw [← h1, hk]
      exact List.mem_map_of_mem Prod.fst h2
    · exfalso
      apply h.1
      rw [← h2, ← hk]
      exact List.mem_map_of_mem Prod.fst h1
    · exact ih h.2 e1 h1 e2 h2 hk

/-- Claim C3 (amended): two rows land in the same group — hence the same
reconstructed report — exactly when their composite `` `${date} ${time}` ``
key strings coincide; identity of the individual date and time cells is
sufficient but (because the key is string concatenation) not necessary.
In particular, two rows with identical date and time cells but different
contractor names reconstruct into a single report with two contractors. -/
theorem sameReport_iff_equal_key :
    (∀ (rows : List Row) (r1 r2 : Row), r1 ∈ rows → r2 ∈ rows →
      ((∃ e ∈ groupByKey rows, r1 ∈ e.2 ∧ r2 ∈ e.2) ↔ rowKey r1 = rowKey r2)) ∧
    (parseSubmissionsFromRows [twoContractorRowX, twoContractorRowY]).length = 1 ∧
    (parseSubmissionsFromRows [twoContractorRowX, twoContractorRowY]).map
      (fun s => s.contractors.length) = [2] := by
  refine ⟨?_, by decide, by decide⟩
  intro rows r1 r2 h1 h2
  constructor
  · rintro ⟨e, he, hr1, hr2⟩
    have k1 := groupAux_keysOK rows [] (by simp) e he r1 hr1
    have k2 := groupAux_keysOK rows [] (by simp) e he r2 hr2
    rw [k1, k2]
  · intro hk
    obtain ⟨e1, he1, hk1, hm1⟩ := groupAux_mem rows [] r1 h1
    obtain ⟨e2, he2, hk2, hm2⟩ := groupAux_mem rows [] r2 h2
    have hnd : ((groupByKey rows).map Prod.fst).Nodup :=
      groupAux_nodup rows [] (by simp)
    have he : e1 = e2 :=
      assoc_eq_of_nodup _ hnd e1 he1 e2 he2 (by rw [hk1, hk2, hk])
    exact ⟨e1, he1, hm1, he ▸ hm2⟩

/-- Claim C3 (counterexample): the rows `["a b", "c", …]` and `["a", "b c", …]`
have different date cells and different time cells yet identical composite
keys, so they are grouped into one report — refuting the claimed
"same report only if the date cells are identical strings". -/
theorem groupKey_collision_counterexample :
    rowKey spacedDateRowA = rowKey spacedDateRowB ∧
    cellAt spacedDateRowA 0 ≠ cellAt spacedDateRowB 0 ∧
    cellAt spacedDateRowA 1 ≠ cellAt spacedDateRowB 1 ∧
    (∃ e ∈ groupByKey [spacedDateRowA, spacedDateRowB],
        spacedDateRowA ∈ e.2 ∧ spacedDateRowB ∈ e.2) ∧
    (parseSubmissionsFromRows [spacedDateRowA, spacedDateRowB]).length = 1 := by
  refine ⟨rfl, by decide, by decide, ?_, by decide⟩
  exact ⟨("a b c", [spacedDateRowA, spacedDateRowB]), by decide, by decide, by decide⟩

theorem sameReport_iff_equal_key_witness :
    (∃ e ∈ groupByKey [twoContractorRowX, twoContractorRowY],
        twoContractorRowX ∈ e.2 ∧ twoContractorRowY ∈ e.2) ↔
      rowKey twoContractorRowX = rowKey twoContractorRowY :=
  sameReport_iff_equal_key.1 [twoContractorRowX, twoContractorRowY] _ _
    (by decide) (by decide)

theorem mem_dedupFold (l : List String) :
    ∀ (init : List String) (k : String),
      k ∈ l.foldl (fun ks k' => if k' ∈ ks then ks else ks ++ [k']) init ↔
        k ∈ init ∨ k ∈ l := by
  induction l with
  | nil => intro init k; simp
  | cons k0 rest ih =>
    intro init k
    simp only [List.foldl_cons]
    by_cases h : k0 ∈ init
    · rw [if_pos h, ih]
      constructor
      · rintro (h1 | h1)
        · exact Or.inl h1
        · exact Or.inr (List.mem_cons_of_mem _ h1)
      · rintro (h1 | h1)
        · exact Or.inl h1
        · rcases List.mem_cons.mp h1 with h2 | h2
          · exact Or.inl (h2 ▸ h)
          · exact Or.inr h2
    · rw [if_neg h, ih]
      simp only [List.mem_append, List.mem_singleton, List.mem_cons]
      tauto

theorem nodup_dedupFold (l : List String) :
    ∀ init : List String, init.Nodup →
      (l.foldl (fun ks k' => if k' ∈ ks then ks else ks ++ [k']) init).Nodup := by
  induction l with
  | nil => intro init h; simpa using h
  | cons k0 rest ih =>
    intro init h
    simp only [List.foldl_cons]
    by_cases hk : k0 ∈ init
    · rw [if_pos hk]; exact ih init h
    · rw [if_neg hk]
      exact ih _ (by simp [List.nodup_append, h, hk])

theorem mem_firstKeys (rows : List Row) (k : String) :
    k ∈ firstKeys rows ↔ k ∈ rows.map nameKey := by
  unfold firstKeys
  rw [mem_dedupFold]
  simp

theorem nodup_firstKeys (rows : List Row) : (firstKeys rows).Nodup :=
  nodup_dedupFold _ [] (List.nodup_nil)

theorem firstKeys_append (rows : List Row) (r : Row) :
    firstKeys (rows ++ [r]) =
      if nameKey r ∈ firstKeys rows then firstKeys rows
      else firstKeys rows ++ [nameKey r] := by
  unfold firstKeys
  rw [List.map_append, List.foldl_append]
  rfl

theorem filter_append_single (p : Row → Bool) (rows : List Row) (r : Row) :
    (rows ++ [r]).filter p = rows.filter p ++ if p r then [r] else [] := by
  rw [List.filter_append]
  congr 1
  by_cases h : p r <;> simp [h]

theorem contractorFor_append_ne (k : String) (rows : List Row) (r : Row)
    (h : nameKey r ≠ k) : contractorFor k (rows ++ [r]) = contractorFor k rows := by
  unfold contractorFor
  rw [filter_append_single]
  simp [h]

theorem contractorFor_append_eq_present (k : String) (rows : List Row) (r : Row)
    (hk : nameKey r = k) (hp : k ∈ rows.map nameKey) :
    contractorFor k (rows ++ [r]) =
      { contractorFor k rows with
        deductions := (contractorFor k rows).deductions ++ [mkDeduction r] } := by
  have hne : rows.filter (fun r' => nameKey r' = k) ≠ [] := by
    rcases List.mem_map.mp hp with ⟨x, hx, hkx⟩
    intro hnil
    have : x ∈ rows.filter (fun r' => nameKey r' = k) :=
      List.mem_filter.mpr ⟨hx, by simp [hkx]⟩
    simp [hnil] at this
  unfold contractorFor
  rw [filter_append_single]
  simp only [hk, if_pos rfl]
  obtain ⟨r0, rest, hfil⟩ := List.exists_cons_of_ne_nil hne
  rw [hfil]
  simp

theorem contractorFor_append_eq_absent (k : String) (rows : List Row) (r : Row)
    (hk : nameKey r = k) (hp : k ∉ rows.map nameKey) :
    contractorFor k (rows ++ [r]) =
      { id := "contractor-" ++ k
        contractorName := cellAt r 4
        notes := (cellAt r 13).orElse (.str "")
        deductions := [mkDeduction r] } := by
  have hnil : rows.filter (fun r' => nameKey r' = k) = [] := by
    rw [List.filter_eq_nil_iff]
    intro a ha
    simp only [decide_eq_true_eq]
    intro hka
    exact hp (List.mem_map.mpr ⟨a, ha, hka⟩)
  unfold contractorFor
  rw [filter_append_single, hnil]
  simp [hk]

theorem insertContractorRow_absent (m : List (String × Contractor)) (r : Row)
    (h : nameKey r ∉ m.map Prod.fst) :
    insertContractorRow m r =
      m ++ [(nameKey r,
        { id := "contractor-" ++ nameKey r
          contractorName := cellAt r 4
          notes := (cellAt r 13).orElse (.str "")
          deductions := [mkDeduction r] })] := by
  induction m with
  | nil => rfl
  | cons e rest ih =>
    obtain ⟨k0, c⟩ := e
    simp only [List.map_cons, List.mem_cons] at h
    push_neg at h
    simp only [insertContractorRow, if_neg (Ne.symm h.1), List.cons_append,
      List.cons.injEq, true_and]
    exact ih h.2

theorem insertContractorRow_present (m : List (String × Contractor)) (r : Row)
    (hnd : (m.map Prod.fst).Nodup) (h : nameKey r ∈ m.map Prod.fst) :
    insertContractorRow m r =
      m.map fun e =>
        if e.1 = nameKey r then
          (e.1, { e.2 with deductions := e.2.deductions ++ [mkDeduction r] })
        else e := by
  induction m with
  | nil => simp at h
  | cons e rest ih =>
    obtain ⟨k0, c⟩ := e
    simp only [List.map_cons, List.nodup_cons] at hnd
    by_cases hk : k0 = nameKey r
    · subst hk
      simp only [insertContractorRow, if_pos rfl, List.map_cons]
      have hrest : ∀ e ∈ rest, (fun e' =>
          if (e' : String × Contractor).1 = nameKey r then
            (e'.1, { e'.2 with deductions := e'.2.deductions ++ [mkDeduction r] })
          else e') e = e := by
        intro e he
        have hne : e.1 ≠ nameKey r := by
          intro heq
          exact hnd.1 (heq ▸ List.mem_map_of_mem Prod.fst he)
        simp [hne]
      rw [List.map_congr_left hrest]
      simp
    · simp only [List.map_cons, List.mem_cons] at h
      rcases h with h | h
      · exact absurd h.symm hk
      · simp only [insertContractorRow, if_neg hk, List.map_cons, if_neg hk]
        congr 1
        exact ih hnd.2 h

theorem contractorsMapOf_eq (rows : List Row) :
    contractorsMapOf rows = (firstKeys rows).map fun k => (k, contractorFor k rows) := by
  induction rows using List.reverseRecOn with
  | nil => rfl
  | append_singleton rs r ih =>
    have hstep : contractorsMapOf (rs ++ [r]) = insertContractorRow (contractorsMapOf rs) r := by
      unfold contractorsMapOf
      rw [List.foldl_append]
      rfl
    have hfst : (contractorsMapOf rs).map Prod.fst = firstKeys rs := by
      rw [ih, List.map_map]
      exact List.map_id _
    by_cases hmem : nameKey r ∈ firstKeys rs
    · rw [hstep, insertContractorRow_present _ r (by rw [hfst]; exact nodup_firstKeys rs)
        (by rw [hfst]; exact hmem)]
      rw [ih, List.map_map, firstKeys_append, if_pos hmem]
      apply List.map_congr_left
      intro k hk
      simp only [Function.comp]
      by_cases hkr : k = nameKey r
      · subst hkr
        rw [if_pos rfl, contractorFor_append_eq_present (nameKey r) rs r rfl
          ((mem_firstKeys rs (nameKey r)).mp hk)]
      · rw [if_neg hkr, contractorFor_append_ne k rs r (fun h => hkr h.symm)]
    · rw [hstep, insertContractorRow_absent _ r (by rw [hfst]; exact hmem)]
      rw [ih, firstKeys_append, if_neg hmem, List.map_append]
      congr 1
      · apply List.map_congr_left
        intro k hk
        have hkr : nameKey r ≠ k := by
          intro h
          exact hmem (h ▸ hk)
        rw [contractorFor_append_ne k rs r hkr]
      · simp only [List.map_cons, List.map_nil]
        rw [contractorFor_append_eq_absent (nameKey r) rs r rfl
          (fun h => hmem ((mem_firstKeys rs _).mpr h))]

theorem orderedEntries_perm {α : Type} (l : List (String × α)) :
    List.Perm (orderedEntries l) l := by
  unfold orderedEntries
  exact ((List.perm_insertionSort _ _).append_right _).trans
    (List.filter_append_perm _ l)

/-- Claim C4: within a group, rows are sub-grouped into contractors by exact
string match on the contractor-name cell; each resulting contractor's notes
(and display name) come from the **first** row of that name — notes of later
rows with the same name are ignored even when they differ — and its deduction
list is exactly the rows of that name, in order.  Conversely every row's
contractor name is represented. -/
theorem contractor_subgroup_first_notes :
    (∀ (rows : List Row) (c : Contractor), c ∈ contractorsOf rows →
      ∃ r0 rest,
        (rows.filter fun r => nameKey r = c.contractorName.toStr) = r0 :: rest ∧
        c.id = "contractor-" ++ c.contractorName.toStr ∧
        c.contractorName = cellAt r0 4 ∧
        c.notes = (cellAt r0 13).orElse (.str "") ∧
        c.deductions =
          (rows.filter fun r => nameKey r = c.contractorName.toStr).map mkDeduction) ∧
    (∀ (rows : List Row) (r : Row), r ∈ rows →
      ∃ c ∈ contractorsOf rows, c.contractorName.toStr = nameKey r) := by
  have hname : ∀ (rows : List Row) (k : String), k ∈ rows.map nameKey →
      ∃ r0 rest, (rows.filter fun r => nameKey r = k) = r0 :: rest ∧
        nameKey r0 = k := by
    intro rows k hp
    rcases List.mem_map.mp hp with ⟨x, hx, hkx⟩
    have hmem : x ∈ rows.filter fun r => nameKey r = k :=
      List.mem_filter.mpr ⟨hx, by simp [hkx]⟩
    match hfil : rows.filter fun r => nameKey r = k with
    | [] => rw [hfil] at hmem; simp at hmem
    | r0 :: rest =>
      have hr0 : r0 ∈ rows.filter fun r => nameKey r = k := by
        rw [hfil]; exact List.mem_cons_self _ _
      have := (List.mem_filter.mp hr0).2
      exact ⟨r0, rest, rfl, by simpa using this⟩
  constructor
  · intro rows c hc
    unfold contractorsOf at hc
    rcases List.mem_map.mp hc with ⟨e, he, hsnd⟩
    have heM : e ∈ contractorsMapOf rows := (orderedEntries_perm _).mem_iff.mp he
    rw [contractorsMapOf_eq] at heM
    rcases List.mem_map.mp heM with ⟨k, hk, hke⟩
    have hkmem : k ∈ rows.map nameKey := (mem_firstKeys rows k).mp hk
    obtain ⟨r0, rest, hfil, hr0k⟩ := hname rows k hkmem
    have hcEq : c = contractorFor k rows := by rw [← hsnd, ← hke]
    have hcName : c.contractorName = cellAt r0 4 := by
      rw [hcEq]
      simp [contractorFor, hfil]
    have hcStr : c.contractorName.toStr = k := by
      rw [hcName]
      exact hr0k
    refine ⟨r0, rest, ?_, ?_, hcName, ?_, ?_⟩
    · rw [hcStr]; exact hfil
    · rw [hcStr, hcEq]; rfl
    · rw [hcEq]
      simp [contractorFor, hfil]
    · rw [hcStr, hcEq]
      rfl
  · intro rows r hr
    have hkmem : nameKey r ∈ rows.map nameKey := List.mem_map_of_mem nameKey hr
    have hk : nameKey r ∈ firstKeys rows := (mem_firstKeys rows _).mpr hkmem
    refine ⟨contractorFor (nameKey r) rows, ?_, ?_⟩
    · unfold contractorsOf
      refine List.mem_map.mpr ⟨(nameKey r, contractorFor (nameKey r) rows), ?_, rfl⟩
      rw [(orderedEntries_perm _).mem_iff, contractorsMapOf_eq]
      exact List.mem_map_of_mem _ hk
    · obtain ⟨r0, rest, hfil, hr0k⟩ := hname rows (nameKey r) hkmem
      have : (contractorFor (nameKey r) rows).contractorName = cellAt r0 4 := by
        simp [contractorFor, hfil]
      rw [this]
      exact hr0k

theorem contractor_subgroup_first_notes_witness :
    ∃ r0 rest,
      ([sameNameRow1, sameNameRow2].filter fun r =>
          nameKey r = demoContractorX.contractorName.toStr) = r0 :: rest ∧
      demoContractorX.id = "contractor-" ++ demoContractorX.contractorName.toStr ∧
      demoContractorX.contractorName = cellAt r0 4 ∧
      demoContractorX.notes = (cellAt r0 13).orElse (.str "") ∧
      demoContractorX.deductions =
        ([sameNameRow1, sameNameRow2].filter fun r =>
          nameKey r = demoContractorX.contractorName.toStr).map mkDeduction :=
  contractor_subgroup_first_notes.1 [sameNameRow1, sameNameRow2] demoContractorX
    (by decide)
theorem decodeU16_u16Char (c : Char) (l : List Nat) :
    decodeU16 (u16Char c ++ l) = c.toNat :: decodeU16 l := by
  have hv : c.toNat < 0xD800 ∨ (0xDFFF < c.toNat ∧ c.toNat < 0x110000) := c.valid
  by_cases h : c.toNat < 0x10000
  · have hns : ¬(0xD800 ≤ c.toNat ∧ c.toNat < 0xDC00) := by omega
    simp only [u16Char, if_pos h, List.cons_append, List.nil_append]
    cases l with
    | nil => simp [decodeU16]
    | cons t rest => simp [decodeU16, hns]
  · have hc : 0x10000 ≤ c.toNat ∧ c.toNat < 0x110000 := by omega
    have hdiv : (c.toNat - 0x10000) / 0x400 < 0x400 := by omega
    have hlead : 0xD800 ≤ 0xD800 + (c.toNat - 0x10000) / 0x400 ∧
        0xD800 + (c.toNat - 0x10000) / 0x400 < 0xDC00 := by omega
    simp only [u16Char, if_neg h, List.cons_append, List.nil_append]
    simp only [decodeU16, if_pos hlead]
    have heq : 0x10000 + (0xD800 + (c.toNat - 0x10000) / 0x400 - 0xD800) * 0x400 +
        (0xDC00 + (c.toNat - 0x10000) % 0x400 - 0xDC00) = c.toNat := by omega
    rw [heq]

theorem decodeU16_chars (l : List Char) :
    decodeU16 ((l.map u16Char).flatten) = l.map Char.toNat := by
  induction l with
  | nil => rfl
  | cons c rest ih =>
    rw [List.map_cons, List.flatten_cons, decodeU16_u16Char, ih, List.map_cons]

theorem strU16_inj {a b : String} (h : strU16 a = strU16 b) : a = b := by
  have hd : a.data.map Char.toNat = b.data.map Char.toNat := by
    rw [← decodeU16_chars a.data, ← decodeU16_chars b.data]
    unfold strU16 at h
    rw [h]
  have hinj : Function.Injective Char.toNat := by
    intro c d hcd
    exact Char.ext (UInt32.ext_iff.mpr (by simpa [UInt32.toNat] using hcd))
  have hdata : a.data = b.data := List.map_injective_iff.mpr hinj hd
  cases a
  cases b
  exact congrArg String.mk hdata

theorem lexLtN_asymm : ∀ (x y : List Nat), lexLtN x y = true → lexLtN y x = false
  | [], [] => by simp [lexLtN]
  | [], _ :: _ => by simp [lexLtN]
  | _ :: _, [] => by simp [lexLtN]
  | a :: as, b :: bs => by
    intro h
    by_cases h1 : b < a
    · exfalso
      simp only [lexLtN, Bool.or_eq_true, Bool.and_eq_true, decide_eq_true_eq] at h
      rcases h with h | ⟨he, _⟩ <;> omega
    · by_cases h2 : b = a
      · simp only [lexLtN, Bool.or_eq_true, Bool.and_eq_true, decide_eq_true_eq] at h
        rcases h with h | ⟨_, hl⟩
        · omega
        · simp [lexLtN, h1, h2, lexLtN_asymm as bs hl]
      · simp [lexLtN, h1, h2]

theorem lexLtN_eq_of_both_false :
    ∀ (x y : List Nat), lexLtN x y = false → lexLtN y x = false → x = y
  | [], [] => by simp
  | [], _ :: _ => by simp [lexLtN]
  | _ :: _, [] => by simp [lexLtN]
  | a :: as, b :: bs => by
    intro h1 h2
    simp only [lexLtN, Bool.or_eq_false_iff, Bool.and_eq_false_iff,
      decide_eq_false_iff_not] at h1 h2
    have hab : a = b := by omega
    subst hab
    have has : as = bs := by
      apply lexLtN_eq_of_both_false as bs
      · rcases h1.2 with h | h
        · simp at h
        · exact h
      · rcases h2.2 with h | h
        · simp at h
        · exact h
    rw [has]

theorem lexLtN_ge_trans :
    ∀ (x y z : List Nat), lexLtN x y = false → lexLtN y z = false → lexLtN x z = false
  | _, [], [] => fun h _ => h
  | x, y, [] => fun _ _ => by cases x <;> simp [lexLtN]
  | [], [], _ :: _ => by simp [lexLtN]
  | [], _ :: _, _ => by simp [lexLtN]
  | _ :: _, [], _ :: _ => by simp [lexLtN]
  | a :: as, b :: bs, c :: cs => by
    intro h1 h2
    simp only [lexLtN, Bool.or_eq_false_iff, Bool.and_eq_false_iff,
      decide_eq_false_iff_not] at h1 h2 ⊢
    have hba : b ≤ a := by omega
    have hcb : c ≤ b := by omega
    refine ⟨by omega, ?_⟩
    by_cases hac : a = c
    · have hab : a = b := by omega
      have hbc : b = c := by omega
      subst hab
      subst hbc
      right
      apply lexLtN_ge_trans as bs cs
      · rcases h1.2 with h | h
        · simp at h
        · exact h
      · rcases h2.2 with h | h
        · simp at h
        · exact h
    · left
      omega

theorem jsStrLt_eq_of_both_false {a b : String} (h1 : jsStrLt a b = false)
    (h2 : jsStrLt b a = false) : a = b :=
  strU16_inj (lexLtN_eq_of_both_false _ _ h1 h2)

theorem submissionCmp_le_iff (a b : Submission) :
    submissionCmp a b ≤ 0 ↔ jsStrLt a.timestamp b.timestamp = false := by
  unfold submissionCmp
  by_cases h : jsStrLt a.timestamp b.timestamp
  · simp [h]
  · simp only [h, Bool.false_eq_true, if_false]
    by_cases h2 : jsStrLt b.timestamp a.timestamp <;> simp [h2]

instance : IsTotal Submission (fun a b => submissionCmp a b ≤ 0) := by
  constructor
  intro a b
  rw [submissionCmp_le_iff, submissionCmp_le_iff]
  by_cases h : jsStrLt a.timestamp b.timestamp
  · right
    exact lexLtN_asymm _ _ h
  · left
    simpa using h

instance : IsTrans Submission (fun a b => submissionCmp a b ≤ 0) := by
  constructor
  intro a b c h1 h2
  rw [submissionCmp_le_iff] at h1 h2 ⊢
  exact lexLtN_ge_trans _ _ _ h1 h2

/-- Claim C6: reconstructed reports come out sorted strictly descending by
their `date time` composite key under JavaScript's lexical (UTF-16 code unit)
string order — for any two reports in the output the lexically greater
timestamp appears first; concretely, a report timestamped `2024-06-01 10:00`
precedes one timestamped `2024-05-01 09:00` even when its rows arrive later.
-/
theorem reports_sorted_descending :
    (∀ rows : List Row, (parseSubmissionsFromRows rows).Pairwise
        (fun a b => jsStrLt b.timestamp a.timestamp = true)) ∧
    (parseSubmissionsFromRows [mayRow, juneRow]).map (·.timestamp) =
      ["2024-06-01 10:00", "2024-05-01 09:00"] := by
  refine ⟨?_, by decide⟩
  intro rows
  have hsorted : List.Sorted (fun a b => submissionCmp a b ≤ 0)
      (parseSubmissionsFromRows rows) := List.sorted_insertionSort _ _
  have hperm : List.Perm (parseSubmissionsFromRows rows)
      ((orderedEntries (groupByKey rows)).map mkSubmission) :=
    List.perm_insertionSort _ _
  have hnodup0 : ((groupByKey rows).map Prod.fst).Nodup :=
    groupAux_nodup rows [] (by simp)
  have hnodup1 : ((orderedEntries (groupByKey rows)).map Prod.fst).Nodup :=
    (((orderedEntries_perm _).map Prod.fst).nodup_iff).mpr hnodup0
  have hts0 : ((orderedEntries (groupByKey rows)).map mkSubmission).map
      (fun s => s.timestamp) = (orderedEntries (groupByKey rows)).map Prod.fst := by
    rw [List.map_map]
    rfl
  have hnodup2 : (((orderedEntries (groupByKey rows)).map mkSubmission).map
      (fun s => s.timestamp)).Nodup := by
    rw [hts0]
    exact hnodup1
  have hnodup : ((parseSubmissionsFromRows rows).map (fun s => s.timestamp)).Nodup :=
    ((hperm.map (fun s => s.timestamp)).nodup_iff).mpr hnodup2
  have hpw_ne : (parseSubmissionsFromRows rows).Pairwise
      (fun a b => a.timestamp ≠ b.timestamp) := (List.pairwise_map).mp hnodup
  have hpw := hsorted.and hpw_ne
  refine hpw.imp ?_
  intro a b hab
  obtain ⟨h1, h2⟩ := hab
  have hf : jsStrLt a.timestamp b.timestamp = false := (submissionCmp_le_iff a b).mp h1
  by_cases hx : jsStrLt b.timestamp a.timestamp
  · exact hx
  · exfalso
    exact h2 (jsStrLt_eq_of_both_false hf (by simpa using hx))
end Khasmak
